import Mathlib

/-!
A shallow embedding of the core of the Rye interpreter
(`interpret.go`, `interpretUtils.go`, `combinators.go`, `parseUtils.go`,
`nodify.go`), together with theorems settling the behavioural claims about
arithmetic, the fallback operator, ranges, destructuring, equality coercion,
the parser combinator engine, and the implicit-lambda rewrite.

Modelling conventions:
* Go `int64` is modelled by `ℤ`; where the Go code can overflow (addition,
  subtraction, multiplication, negation) the result is wrapped explicitly with
  `wrap64`.
* Go `float64` is modelled by `ℚ`.  The claims settled here depend only on
  which constructor a computation returns and on exact arithmetic at small
  witness values, not on IEEE-754 rounding.  One intentional divergence:
  `1 / 0 = 0` in `ℚ` whereas Go produces `+Inf`; no theorem below evaluates a
  reciprocal at zero.
* Go maps keyed by strings are modelled by association lists updated in place.
-/

namespace Rye

/-- Evaluated Rye values: the value subset of AST nodes produced by `Interpret`
(`interpret.go`).  Set, object, lambda and module values do not occur in the
operations embedded here and are omitted. -/
inductive Value where
  | int (i : ℤ)
  | float (q : ℚ)
  | bool (b : Bool)
  | str (s : String)
  | list (l : List Value)
  | success
  | fail
  | null

/-- The subset of `NodeType` tags (`ast.go`) that `maybeCastNumbers` can
return; `error` stands for `ErrorNT`. -/
inductive NT where
  | int
  | float
  | bool
  | str
  | list
  | success
  | fail
  | null
  | error
deriving DecidableEq

/-- The `NodeType` tag of a value (`n.Type` in the Go code). -/
def Value.nt : Value → NT
  | .int _ => .int
  | .float _ => .float
  | .bool _ => .bool
  | .str _ => .str
  | .list _ => .list
  | .success => .success
  | .fail => .fail
  | .null => .null

/-- Wrapping of a mathematical integer into the `int64` range, modelling Go's
two's-complement overflow behaviour. -/
def wrap64 (x : ℤ) : ℤ := (x + 2 ^ 63) % 2 ^ 64 - 2 ^ 63

/-- `Node.ToString` (`ast.go`) on an integer node: Go formats `int64` with
`%v`, which prints the decimal form, matching `toString` on `ℤ`. -/
def intToString (i : ℤ) : String := toString i

/-- `Node.ToString` (`ast.go`) on a float node.  Go formats `float64` with
`%v`; the exact decimal rendering of a binary float has no counterpart on `ℚ`,
so the embedding fixes a definite printed form.  No claim below depends on the
concrete rendering, only on the fact that the comparison is made against the
printed form of the number. -/
def floatToString (q : ℚ) : String := toString q

/-- `isTruthy` (`interpretUtils.go`). -/
def isTruthy : Value → Bool
  | .success => true
  | .fail => false
  | .float q => decide (q ≠ 0)
  | .int i => decide (i ≠ 0)
  | .bool b => b
  | .str s => decide (s.length ≠ 0)
  | .null => false
  | .list _ => true

/-- `maybeCastNumbers` (`interpretUtils.go`): casts numbers to floats if one
operand is a float, and casts a number to its printed string when the other
operand is a string.  Returns the (possibly cast) operands and the common
`NodeType`, `ErrorNT` when the kinds are incompatible. -/
def maybeCastNumbers (a b : Value) : Value × Value × NT :=
  if a.nt = b.nt then (a, b, a.nt)
  else
    match a with
    | .int i =>
      match b with
      | .float _ => (.float (i : ℚ), b, .float)
      | _ => (a, b, .error)
    | .float _ =>
      match b with
      | .int j => (a, .float (j : ℚ), .float)
      | _ => (a, b, .error)
    | .str _ =>
      match b with
      | .int j => (a, .str (intToString j), .str)
      | .float q => (a, .str (floatToString q), .str)
      | _ => (a, b, .error)
    | _ => (a, b, .error)

mutual

/-- `evalEquality` (`interpretUtils.go`).  The list branch is reached exactly
when both operands are lists (the cast never produces a list), in which case
`maybeCastNumbers` returns them unchanged; the embedding therefore matches the
list case first.  A `Cannot compare types` error is reported for the
incompatible (`ErrorNT`) combinations. -/
def evalEquality (a b : Value) : Except String Bool :=
  match a, b with
  | .list la, .list lb =>
    if la.length ≠ lb.length then .ok false
    else evalEqualityList la lb
  | a, b =>
    match maybeCastNumbers a b with
    | (.int x, .int y, .int) => .ok (decide (x = y))
    | (.float x, .float y, .float) => .ok (decide (x = y))
    | (.str x, .str y, .str) => .ok (decide (x = y))
    | (.bool x, .bool y, .bool) => .ok (decide (x = y))
    | (_, _, .success) => .ok true
    | (_, _, .fail) => .ok true
    | (_, _, .null) => .ok true
    | (_, _, _) => .error "Cannot compare types"

/-- The element-wise loop of `evalEquality` over two lists: stops at the first
mismatch or error. -/
def evalEqualityList (la lb : List Value) : Except String Bool :=
  match la, lb with
  | [], _ => .ok true
  | _ :: _, [] => .ok false
  | x :: xs, y :: ys =>
    match evalEquality x y with
    | .error e => .error e
    | .ok false => .ok false
    | .ok true => evalEqualityList xs ys

end

/-- The five binary arithmetic node types handled by `interpretMathOp`. -/
inductive MathOp where
  | add
  | subt
  | div
  | mult
  | modulo
deriving DecidableEq

/-- The arithmetic core of `interpretMathOp` (`interpret.go`), applied to the
already-evaluated operands: cast with `maybeCastNumbers`, then dispatch on the
operator and the common type tag; any other combination yields `FAIL`.
Integer addition, subtraction and multiplication wrap; integer division
converts both operands to float; `%` is Go's truncated remainder. -/
def mathOp (op : MathOp) (lhs rhs : Value) : Value :=
  match op, maybeCastNumbers lhs rhs with
  | .add, (.int x, .int y, .int) => .int (wrap64 (x + y))
  | .add, (.float x, .float y, .float) => .float (x + y)
  | .add, (.str x, .str y, .str) => .str (x ++ y)
  | .add, (.list x, .list y, .list) => .list (x ++ y)
  | .add, _ => .fail
  | .subt, (.int x, .int y, .int) => .int (wrap64 (x - y))
  | .subt, (.float x, .float y, .float) => .float (x - y)
  | .subt, _ => .fail
  | .div, (.int x, .int y, .int) =>
    if y = 0 then .fail else .float ((x : ℚ) / (y : ℚ))
  | .div, (.float x, .float y, .float) =>
    if y = 0 then .fail else .float (x / y)
  | .div, _ => .fail
  | .mult, (.int x, .int y, .int) => .int (wrap64 (x * y))
  | .mult, (.float x, .float y, .float) => .float (x * y)
  | .mult, _ => .fail
  | .modulo, (.int x, .int y, .int) =>
    if y = 0 then .fail else .int (x.tmod y)
  | .modulo, _ => .fail

/-- The repeated-multiplication loop of `interpretPower` for an integer base:
`total` starts at 1 and is multiplied by the base once per iteration, each
step wrapping as `int64` multiplication does. -/
def powLoopInt (b : ℤ) : ℕ → ℤ
  | 0 => 1
  | k + 1 => wrap64 (powLoopInt b k * b)

/-- The repeated-multiplication loop of `interpretPower` for a float base. -/
def powLoopFloat (b : ℚ) : ℕ → ℚ
  | 0 => 1
  | k + 1 => powLoopFloat b k * b

/-- `interpretPower` (`interpret.go`) on the already-evaluated operands.  A
non-integer exponent yields `FAIL`.  The iteration count is the exponent with
its sign flipped when negative (an `int64` negation, hence the wrap); a
negative count runs the loop zero times.  For an integer base the total is
reciprocated as a float when the exponent is negative; for a float base the
total is returned as is. -/
def interpretPower (lhs rhs : Value) : Value :=
  match rhs with
  | .int e =>
    match lhs with
    | .float b =>
      let x : ℤ := if e < 0 then wrap64 (-e) else e
      .float (powLoopFloat b x.toNat)
    | .int b =>
      let x : ℤ := if e < 0 then wrap64 (-e) else e
      let total := powLoopInt b x.toNat
      if e < 0 then .float (1 / (total : ℚ)) else .int total
    | _ => .fail
  | _ => .fail

/-- The three logical binary node types handled by `interpretLogicOp`. -/
inductive LogicOp where
  | and
  | or
  | fallback
deriving DecidableEq

/-- The core of `interpretLogicOp` (`interpret.go`) on the already-evaluated
operands: `and` returns the right operand when the left is truthy and `false`
otherwise, `or` returns the left operand when truthy and the right otherwise,
and the fallback `|` returns the right operand exactly when the left is the
`fail` value. -/
def logicOp (op : LogicOp) (lhs rhs : Value) : Value :=
  match op with
  | .and => if isTruthy lhs then rhs else .bool false
  | .or => if isTruthy lhs then lhs else rhs
  | .fallback =>
    match lhs with
    | .fail => rhs
    | _ => lhs

/-- The six comparison node types handled by `interpretComparison`. -/
inductive CmpOp where
  | eq
  | ne
  | le
  | ge
  | lt
  | gt
deriving DecidableEq

/-- The core of `interpretComparison` (`interpret.go`): `==` and `!=` go
through `evalEquality`, turning an equality error into `FAIL`; the ordered
comparisons go through `maybeCastNumbers` and apply only to number pairs,
yielding `FAIL` otherwise. -/
def cmpOp (op : CmpOp) (lhs rhs : Value) : Value :=
  match op with
  | .eq =>
    match evalEquality lhs rhs with
    | .error _ => .fail
    | .ok b => .bool b
  | .ne =>
    match evalEquality lhs rhs with
    | .error _ => .fail
    | .ok b => .bool (!b)
  | _ =>
    match op, maybeCastNumbers lhs rhs with
    | .le, (.int x, .int y, .int) => .bool (decide (x ≤ y))
    | .le, (.float x, .float y, .float) => .bool (decide (x ≤ y))
    | .ge, (.int x, .int y, .int) => .bool (decide (x ≥ y))
    | .ge, (.float x, .float y, .float) => .bool (decide (x ≥ y))
    | .lt, (.int x, .int y, .int) => .bool (decide (x < y))
    | .lt, (.float x, .float y, .float) => .bool (decide (x < y))
    | .gt, (.int x, .int y, .int) => .bool (decide (x > y))
    | .gt, (.float x, .float y, .float) => .bool (decide (x > y))
    | _, _ => .fail

/-- Truncation of a float toward zero, as Go's `int64(f)` conversion does. -/
def truncQ (q : ℚ) : ℤ := if 0 ≤ q then ⌊q⌋ else ⌈q⌉

/-- The list `[i, i+1, ..., endVal-1]` built by the loop of `interpretRange`. -/
def rangeList (i endVal : ℤ) : List Value :=
  (List.range (endVal - i).toNat).map (fun k => Value.int (i + k))

/-- The tail of `interpretRange` (`interpret.go`) after both endpoints have
been evaluated and the non-integer-start hard error has been ruled out: the
counter starts at 0, is overwritten from the start value when one is present
(the float branch is dead code in the source, kept here faithfully), the end
value is taken from an integer or truncated from a float and any other end
kind yields `FAIL`; a start not below the end yields the empty list. -/
def rangeCore (start : Option Value) (endv : Value) : Value :=
  let i? : Option ℤ :=
    match start with
    | none => some 0
    | some (.int k) => some k
    | some (.float q) => some (truncQ q)
    | some _ => none
  match i? with
  | none => .fail
  | some i =>
    match endv with
    | .int e => if i ≥ e then .list [] else .list (rangeList i e)
    | .float q =>
      let e := truncQ q
      if i ≥ e then .list [] else .list (rangeList i e)
    | _ => .fail

/-- One environment scope (`Environment` in `ast.go`): constants and
variables.  Identifier resolution in the claims below only needs a single
scope; the parent chain of the Go structure is not involved. -/
structure Env where
  consts : List (String × Value)
  vars : List (String × Value)

/-- `resolveIdentifier` (`interpretUtils.go`): constants are consulted before
variables; an unbound name is a hard error (the message of the `Line == 0`
branch). -/
def resolveIdentifier (env : Env) (name : String) : Except String Value :=
  match env.consts.lookup name with
  | some v => .ok v
  | none =>
    match env.vars.lookup name with
    | some v => .ok v
    | none => .error ("\"" ++ name ++ "\" is undefined")

/-- The fragment of the expression AST (`Node` shapes produced by the parser)
whose evaluation the claims below concern.  `rangeTo` is a `RangeNT` node with
a nil left child, `rangeFromTo` one with both children present. -/
inductive Expr where
  | lit (v : Value)
  | ident (name : String)
  | math (op : MathOp) (l r : Expr)
  | power (l r : Expr)
  | logic (op : LogicOp) (l r : Expr)
  | cmp (op : CmpOp) (l r : Expr)
  | rangeTo (e : Expr)
  | rangeFromTo (s e : Expr)

/-- `Interpret` (`interpret.go`) restricted to the expression fragment above.
Literals evaluate to themselves (`copyNode`); identifiers resolve or raise a
hard error; every binary operation evaluates its left operand and then its
right operand, propagating a hard error from either before applying the
operator core.  For a range, the start is evaluated first and a non-integer
start raises the hard error `Invalid start value for range` before the end is
evaluated. -/
def interpret (env : Env) : Expr → Except String Value
  | .lit v => .ok v
  | .ident s => resolveIdentifier env s
  | .math op l r =>
    match interpret env l with
    | .error m => .error m
    | .ok lv =>
      match interpret env r with
      | .error m => .error m
      | .ok rv => .ok (mathOp op lv rv)
  | .power l r =>
    match interpret env l with
    | .error m => .error m
    | .ok lv =>
      match interpret env r with
      | .error m => .error m
      | .ok rv => .ok (interpretPower lv rv)
  | .logic op l r =>
    match interpret env l with
    | .error m => .error m
    | .ok lv =>
      match interpret env r with
      | .error m => .error m
      | .ok rv => .ok (logicOp op lv rv)
  | .cmp op l r =>
    match interpret env l with
    | .error m => .error m
    | .ok lv =>
      match interpret env r with
      | .error m => .error m
      | .ok rv => .ok (cmpOp op lv rv)
  | .rangeTo e =>
    match interpret env e with
    | .error m => .error m
    | .ok endv => .ok (rangeCore none endv)
  | .rangeFromTo s e =>
    match interpret env s with
    | .error m => .error m
    | .ok sv =>
      if sv.nt ≠ NT.int then .error "Invalid start value for range"
      else
        match interpret env e with
        | .error m => .error m
        | .ok endv => .ok (rangeCore (some sv) endv)

/-- A function scope's variable map (`scope.Vars`), as an association list. -/
def Scope := List (String × Value)

/-- Map insertion `scope.Vars[name] = v`. -/
def scopeInsert : Scope → String → Value → Scope
  | [], k, v => [(k, v)]
  | (k', v') :: rest, k, v =>
    if k' = k then (k, v) :: rest else (k', v') :: scopeInsert rest k v

/-- Parameter shapes accepted by `assignArg` (`interpretUtils.go`): a plain
identifier parameter or a list-destructuring pattern of identifiers.  (Object
destructuring is not involved in the claims below.) -/
inductive Param where
  | ident (name : String)
  | listPat (names : List String)

/-- The body of the `range` loop in the `ListNT` branch of `assignArg`
(`interpretUtils.go`): for each pattern identifier at position `i`, when
`i >= len(as)` the identifier is first bound to `FAIL`, and then — with no
`else` in the source — `as[i]` is read unconditionally, which panics (index
out of range) whenever `i >= len(as)`.  The panic is modelled as `none`. -/
def assignListLoop (as : List Value) : List String → ℕ → Scope → Option Scope
  | [], _, s => some s
  | p :: ps, i, s =>
    let s1 := if as.length ≤ i then scopeInsert s p Value.fail else s
    match as.get? i with
    | none => none
    | some v => assignListLoop as ps (i + 1) (scopeInsert s1 p v)

/-- `assignArg` (`interpretUtils.go`) for the parameter shapes above: a plain
parameter is bound directly; a list pattern binds every identifier to `FAIL`
when the argument is not a list, and otherwise runs the positional loop
`assignListLoop`.  `none` models a Go runtime panic. -/
def assignArg (arg : Value) (param : Param) (scope : Scope) : Option Scope :=
  match param with
  | .ident name => some (scopeInsert scope name arg)
  | .listPat names =>
    match arg with
    | .list as => assignListLoop as names 0 scope
    | _ => some (names.foldl (fun s p => scopeInsert s p Value.fail) scope)

/-- The subset of token types (`token.go`) used by the parser fragments
embedded here. -/
inductive TokenT where
  | newLineTT
  | intTT
  | plusTT
  | minusTT
  | starTT
  | barTT
  | equalTT
  | plusEqualTT
  | identifierTT
  | leftParenTT
  | rightParenTT
  | eofTT
deriving DecidableEq

/-- A token (`token.go`): type, line, lexeme. -/
structure Token where
  t : TokenT
  line : ℕ
  lexeme : String
deriving DecidableEq

/-- The subset of `NodeType` tags (`ast.go`) occurring in the parse-time nodes
embedded here. -/
inductive NodeT where
  | stmtNT
  | constDeclNT
  | lambdaNT
  | paramNT
  | addNT
  | subtNT
  | multNT
  | fallbackNT
  | assignmentNT
  | augAssignNT
  | mapNT
  | whereNT
  | pipeNT
  | underscoreNT
  | identifierNT
  | intNT
  | unaryNegNT
deriving DecidableEq

/-- A parse-time AST node (`Node` in `ast.go`) as far as the parser fragments
here inspect it: a type tag, an optional string payload, and the two child
slots `L` and `R`.  (Slice-valued payloads are not traversed by any of the
embedded functions.) -/
inductive PNode where
  | mk (t : NodeT) (val : Option String) (l : Option PNode) (r : Option PNode)

/-- The type tag of a parse node. -/
def PNode.typ : PNode → NodeT
  | .mk t _ _ _ => t

/-- A parse state (`ParseRes` in `parseUtils.go`): success flag, error
message, built node, consumed token, remaining tokens. -/
structure ParseRes where
  ok : Bool
  err : String
  node : Option PNode
  parsed : Option Token
  tokens : List Token

/-- A parser (`Parser` in `parseUtils.go`).  Every parser in the source
ignores the `Nodify` passed as its second argument (each closure binds it as
`_`), so a parser is modelled as a function of the state alone. -/
def Parser := ParseRes → ParseRes

/-- A two-argument `Nodify` result builder as the combinators invoke it. -/
def Nodify2 := ParseRes → ParseRes → Option PNode

/-- A one-argument `Nodify` result builder as `pToken` invokes it. -/
def Nodify1 := ParseRes → Option PNode

/-- `fail` (`parseUtils.go`): a failure state carrying only the message; the
`tokens` field is left at its zero value, the empty stream. -/
def failRes (message : String) : ParseRes :=
  ⟨false, message, none, none, []⟩

/-- The leading-newline stripping loop shared by the token-level parsers and
by `Wrapped`. -/
def stripNL : List Token → List Token
  | [] => []
  | tok :: rest => if tok.t = .newLineTT then stripNL rest else tok :: rest

/-- A printable name per token type, standing in for `TokenType.ToString`. -/
def ttName : TokenT → String
  | .newLineTT => "newline"
  | .intTT => "int"
  | .plusTT => "+"
  | .minusTT => "-"
  | .starTT => "*"
  | .barTT => "|"
  | .equalTT => "="
  | .plusEqualTT => "+="
  | .identifierTT => "identifier"
  | .leftParenTT => "("
  | .rightParenTT => ")"
  | .eofTT => "EOF"

/-- `operatorMap` (`parseUtils.go`) restricted to the embedded token types. -/
def operatorMap : TokenT → Option NodeT
  | .plusTT => some .addNT
  | .minusTT => some .subtNT
  | .starTT => some .multNT
  | .barTT => some .fallbackNT
  | .equalTT => some .assignmentNT
  | _ => none

/-- The unary operator map inside `pOperatorUnary` (`parseUtils.go`),
restricted to the embedded token types. -/
def unaryOperatorMap : TokenT → Option NodeT
  | .minusTT => some .unaryNegNT
  | _ => none

/-- `assignOpMap` (`parseUtils.go`) restricted to the embedded token types. -/
def assignOpMap : TokenT → Option NodeT
  | .plusEqualTT => some .addNT
  | _ => none

/-- `pToken` (`parseUtils.go`): skip leading newlines (unless newlines are the
target), fail with `Tokens exhausted` on an empty stream, consume a matching
token (running the builder on the successful state), and on a mismatch fail
with a diagnostic while restoring the original stream. -/
def pToken (tt : TokenT) (n : Option Nodify1) : Parser := fun curr =>
  if curr.ok then
    let tokens := if tt ≠ .newLineTT then stripNL curr.tokens else curr.tokens
    match tokens with
    | [] => failRes "Tokens exhausted"
    | tok :: rest =>
      if tok.t = tt then
        let res : ParseRes := ⟨true, "", none, some tok, rest⟩
        match n with
        | some f => { res with node := f res }
        | none => res
      else
        ⟨false,
          "Line " ++ toString tok.line ++ ": Parsing error. Expected " ++
            ttName tt ++ ", received " ++ ttName tok.t ++ " \"" ++
            tok.lexeme ++ "\"",
          none, none, curr.tokens⟩
  else curr

/-- `pOperator` (`parseUtils.go`): like `pToken` for a binary operator token,
building the operator node from `operatorMap`; both the exhausted-stream and
the no-match paths go through `fail`, so they carry the empty stream. -/
def pOperator (tt : TokenT) : Parser := fun curr =>
  if curr.ok then
    let tokens := if tt ≠ .newLineTT then stripNL curr.tokens else curr.tokens
    match tokens with
    | [] => failRes "Tokens exhausted"
    | tok :: rest =>
      if tok.t = tt then
        match operatorMap tt with
        | none => failRes "Unknown operator"
        | some op => ⟨true, "", some (.mk op none none none), none, rest⟩
      else failRes "No match"
  else curr

/-- `pOperatorUnary` (`parseUtils.go`): as `pOperator` with the unary operator
map.  The source does not test `curr.ok` here. -/
def pOperatorUnary (tt : TokenT) : Parser := fun curr =>
  let tokens := if tt ≠ .newLineTT then stripNL curr.tokens else curr.tokens
  match tokens with
  | [] => failRes "Tokens exhausted"
  | tok :: rest =>
    if tok.t = tt then
      match unaryOperatorMap tt with
      | none => failRes "Unknown operator"
      | some op => ⟨true, "", some (.mk op none none none), none, rest⟩
    else failRes "No match"

/-- `pAssignOperator` (`parseUtils.go`): plain `=` produces an assignment
node, the compound tokens produce an `AugAssignNT` node holding the
underlying operator on its `R` child; failures go through `fail`. -/
def pAssignOperator (tt : TokenT) : Parser := fun curr =>
  if curr.ok then
    let tokens := stripNL curr.tokens
    match tokens with
    | [] => failRes "Tokens exhausted"
    | tok :: rest =>
      if tok.t = tt then
        if tt = .equalTT then
          ⟨true, "", some (.mk .assignmentNT none none none), none, rest⟩
        else
          match assignOpMap tt with
          | none => failRes "Unknown operator"
          | some nt =>
            ⟨true, "",
              some (.mk .augAssignNT none none (some (.mk nt none none none))),
              none, rest⟩
      else failRes "No match"
  else curr

/-- `Then` (`combinators.go`): run `a`, then `b` on its output; on success of
both, optionally rebuild the node; on either failure, the failing state
carries the error and the original token stream. -/
def Then (a b : Parser) (n : Option Nodify2) : Parser := fun curr =>
  if curr.ok then
    let resA := a curr
    if resA.ok then
      let resB := b resA
      if resB.ok then
        match n with
        | some f => { resB with node := f resA resB }
        | none => resB
      else ⟨false, resB.err, none, none, curr.tokens⟩
    else ⟨false, resA.err, none, none, curr.tokens⟩
  else curr

/-- `ThenMaybe` (`combinators.go`): like `Then`, but a failure of `b` after a
success of `a` yields `a`'s state unchanged. -/
def ThenMaybe (a b : Parser) (n : Option Nodify2) : Parser := fun curr =>
  if curr.ok then
    let resA := a curr
    if resA.ok then
      let resB := b resA
      if resB.ok then
        match n with
        | some f => { resB with node := f resA resB }
        | none => resB
      else resA
    else ⟨false, resA.err, none, none, curr.tokens⟩
  else curr

/-- `Either` (`combinators.go`): first success wins; on double failure the
result restores the original stream. -/
def Either (a b : Parser) : Parser := fun curr =>
  let resA := a curr
  if resA.ok then resA
  else
    let resB := b curr
    if resB.ok then resB
    else ⟨false, "", none, none, curr.tokens⟩

/-- The loop of `Choice` over its alternatives. -/
def ChoiceAux : List Parser → ParseRes → ParseRes
  | [], curr => ⟨false, "", none, none, curr.tokens⟩
  | p :: ps, curr =>
    let res := p curr
    if res.ok then res else ChoiceAux ps curr

/-- `Choice` (`combinators.go`): try alternatives in order; the first success
wins; when all fail, restore the original stream. -/
def Choice (ps : List Parser) : Parser := fun curr => ChoiceAux ps curr

/-- The `for res.ok` loop shared by `Star` and `Plus` (`combinators.go`):
re-run the parser from the latest state; on success, rebuild the node from
the previous recorded state and record the new one; stop when a run fails.
The loop is given explicit fuel; the source loops unboundedly. -/
def starIter (p : Parser) (n : Nodify2) : ℕ → ParseRes → ParseRes → ParseRes
  | 0, prev, _ => prev
  | fuel + 1, prev, res =>
    if res.ok then
      let res2 := p res
      if res2.ok then
        let res2' := { res2 with node := n prev res2 }
        starIter p n fuel res2' res2'
      else starIter p n fuel prev res2
    else prev

/-- `Star` (`combinators.go`): zero or more occurrences; always returns a
success state built from the last recorded position. -/
def Star (fuel : ℕ) (p : Parser) (n : Nodify2) : Parser := fun curr =>
  let res := p curr
  let prev := starIter p n fuel curr res
  ⟨true, "", prev.node, none, prev.tokens⟩

/-- `Plus` (`combinators.go`): one or more occurrences; fails — restoring the
original stream — exactly when the first run fails, and otherwise returns the
last recorded success state. -/
def Plus (fuel : ℕ) (p : Parser) (n : Nodify2) : Parser := fun curr =>
  let res := p curr
  if res.ok then starIter p n fuel res res
  else ⟨false, "", none, none, curr.tokens⟩

/-- `Maybe` (`combinators.go`): try `p`; on failure succeed with no node and
the original stream. -/
def Maybe (p : Parser) : Parser := fun curr =>
  let res := p curr
  if res.ok then res
  else ⟨true, "", none, none, curr.tokens⟩

/-- `Wrapped` (`combinators.go`): expect the left delimiter, skip newlines,
run the target from a fresh success state, skip newlines, expect the right
delimiter.  A failing target returns the input state unchanged; the delimiter
mismatch paths restore the original stream. -/
def Wrapped (lt : TokenT) (target : Parser) (rt : TokenT) : Parser :=
  fun curr =>
    match curr.tokens with
    | [] => ⟨false, "", none, none, curr.tokens⟩
    | tok :: rest =>
      if tok.t = lt then
        let tokens := stripNL rest
        let res := target ⟨true, "", none, none, tokens⟩
        if res.ok then
          match stripNL res.tokens with
          | [] => ⟨false, "", none, none, curr.tokens⟩
          | tok2 :: rest2 =>
            if tok2.t = rt then ⟨true, "", res.node, none, rest2⟩
            else ⟨false, "", none, none, curr.tokens⟩
        else curr
      else ⟨false, "", none, none, curr.tokens⟩

/-- The parsers built from the combinator engine: the token-level primitives
of `parseUtils.go` and arbitrary applications of the combinators of
`combinators.go` to engine-built sub-parsers. -/
inductive Built : Parser → Prop where
  | tok (tt : TokenT) (n : Option Nodify1) : Built (pToken tt n)
  | op (tt : TokenT) : Built (pOperator tt)
  | opUnary (tt : TokenT) : Built (pOperatorUnary tt)
  | assignOp (tt : TokenT) : Built (pAssignOperator tt)
  | then_ (a b : Parser) (n : Option Nodify2) :
      Built a → Built b → Built (Then a b n)
  | thenMaybe (a b : Parser) (n : Option Nodify2) :
      Built a → Built b → Built (ThenMaybe a b n)
  | either (a b : Parser) : Built a → Built b → Built (Either a b)
  | choice (ps : List Parser) : (∀ p ∈ ps, Built p) → Built (Choice ps)
  | star (fuel : ℕ) (p : Parser) (n : Nodify2) : Built p → Built (Star fuel p n)
  | plus (fuel : ℕ) (p : Parser) (n : Nodify2) : Built p → Built (Plus fuel p n)
  | maybe (p : Parser) : Built p → Built (Maybe p)
  | wrapped (lt : TokenT) (p : Parser) (rt : TokenT) :
      Built p → Built (Wrapped lt p rt)

/-- The parsers whose outermost construction is one of the eight combinators
of `combinators.go` (applied to arbitrary sub-parsers). -/
inductive CombApp : Parser → Prop where
  | then_ (a b : Parser) (n : Option Nodify2) : CombApp (Then a b n)
  | thenMaybe (a b : Parser) (n : Option Nodify2) : CombApp (ThenMaybe a b n)
  | either (a b : Parser) : CombApp (Either a b)
  | choice (ps : List Parser) : CombApp (Choice ps)
  | star (fuel : ℕ) (p : Parser) (n : Nodify2) : CombApp (Star fuel p n)
  | plus (fuel : ℕ) (p : Parser) (n : Nodify2) : CombApp (Plus fuel p n)
  | maybe (p : Parser) : CombApp (Maybe p)
  | wrapped (lt : TokenT) (p : Parser) (rt : TokenT) :
      CombApp (Wrapped lt p rt)

/-- The forbidden node kinds of the implicit-lambda rewrite `maybeFunc`
(`nodify.go`). -/
def forbiddenNT (t : NodeT) : Bool :=
  t = .mapNT || t = .whereNT || t = .pipeNT || t = .stmtNT

/-- Whether the breadth-first scan of `maybeFunc` (`nodify.go`) meets a
forbidden node: the scan walks exactly the `L` and `R` child slots. -/
def hasForbidden : PNode → Bool
  | .mk t _ l r =>
    forbiddenNT t ||
      (match l with
       | some c => hasForbidden c
       | none => false) ||
      (match r with
       | some c => hasForbidden c
       | none => false)

/-- Whether the scan of `maybeFunc` meets an underscore node. -/
def hasUnderscore : PNode → Bool
  | .mk t _ l r =>
    t = .underscoreNT ||
      (match l with
       | some c => hasUnderscore c
       | none => false) ||
      (match r with
       | some c => hasUnderscore c
       | none => false)

/-- The node wrapped by `maybeFunc`: a one-parameter lambda whose parameter is
the underscore placeholder and whose body is the original node. -/
def underscoreLambda (n : PNode) : PNode :=
  .mk .lambdaNT none (some (.mk .paramNT (some "_") none none)) (some n)

/-- The node transformation of `maybeFunc` (`nodify.go`) on a successful parse
result: the breadth-first scan returns the node unchanged as soon as it meets
a forbidden kind anywhere in the tree; otherwise, when the tree contains an
underscore atom the node is wrapped in `underscoreLambda`.  The early-return
scan of the source visits every node when no forbidden kind occurs, so it is
equivalent to the two containment tests used here. -/
def maybeFuncRewrite (n : PNode) : PNode :=
  if hasForbidden n then n
  else if hasUnderscore n then underscoreLambda n
  else n

theorem wrap64_eq_self (x : ℤ) (h1 : -(2 ^ 63) ≤ x) (h2 : x < 2 ^ 63) :
    wrap64 x = x := by
  unfold wrap64
  have h0 : (0 : ℤ) ≤ x + 2 ^ 63 := by linarith
  have h3 : x + 2 ^ 63 < 2 ^ 64 := by
    have : (2 : ℤ) ^ 64 = 2 ^ 63 + 2 ^ 63 := by norm_num
    linarith
  rw [Int.emod_eq_of_lt h0 h3]
  ring

theorem rangeList_of_ge (a b : ℤ) (h : a ≥ b) : rangeList a b = [] := by
  unfold rangeList
  rw [Int.toNat_of_nonpos (by linarith)]
  rfl

theorem rangeCore_int_int (a b : ℤ) :
    rangeCore (some (Value.int a)) (Value.int b) = .list (rangeList a b) := by
  show (if a ≥ b then Value.list [] else Value.list (rangeList a b)) =
    Value.list (rangeList a b)
  by_cases h : a ≥ b
  · rw [if_pos h, rangeList_of_ge a b h]
  · rw [if_neg h]

theorem rangeCore_none_int (b : ℤ) :
    rangeCore none (Value.int b) = .list (rangeList 0 b) := by
  show (if (0 : ℤ) ≥ b then Value.list [] else Value.list (rangeList 0 b)) =
    Value.list (rangeList 0 b)
  by_cases h : (0 : ℤ) ≥ b
  · rw [if_pos h, rangeList_of_ge 0 b h]
  · rw [if_neg h]

theorem rangeCore_int_float (a : ℤ) (q : ℚ) :
    rangeCore (some (Value.int a)) (Value.float q) =
      .list (rangeList a (truncQ q)) := by
  show (if a ≥ truncQ q then Value.list []
        else Value.list (rangeList a (truncQ q))) =
    Value.list (rangeList a (truncQ q))
  by_cases h : a ≥ truncQ q
  · rw [if_pos h, rangeList_of_ge a (truncQ q) h]
  · rw [if_neg h]

theorem interpret_range_lit (env : Env) (v w : Value) :
    interpret env (.rangeFromTo (.lit v) (.lit w)) =
      if v.nt = NT.int then .ok (rangeCore (some v) w)
      else .error "Invalid start value for range" := by
  by_cases h : v.nt = NT.int
  · rw [if_pos h]
    simp [interpret, h]
  · rw [if_neg h]
    simp [interpret, h]

/-- C1: the spec's destructuring-completeness invariant — a list-destructuring
parameter pattern of `k` identifiers called with a list of length `n` binds
the first `min(k,n)` identifiers to the elements and the rest to `fail`,
completing normally for every `n` — holds in the code only when `n ≥ k`: the
loop in `assignArg` assigns `FAIL` when `i >= len(as)` but then reads `as[i]`
unconditionally (the `else` is missing), so any call with `n < k` panics with
an index-out-of-range error, modelled as `none`.  With the pattern
`[a, b, c]`: a three-element argument binds all three names, while a
one-element argument crashes. -/
theorem C1_assignArg_short_list_panics :
    assignArg (Value.list [Value.int 10, Value.int 20, Value.int 30])
        (Param.listPat ["a", "b", "c"]) [] =
      some [("a", Value.int 10), ("b", Value.int 20), ("c", Value.int 30)] ∧
    assignArg (Value.list [Value.int 10]) (Param.listPat ["a", "b", "c"]) [] =
      none :=
  ⟨rfl, rfl⟩

/-- C2 (counterexample): the claim that `+`, `-`, `*`, `/`, `%` on two integer
operands yield `fail` or an integer fails for `/`: `4 / 2` evaluates to the
float `2.0`, which is neither an integer nor `fail`; integer division always
produces a float in `interpretMathOp`. -/
theorem C2_int_div_returns_float :
    mathOp MathOp.div (Value.int 4) (Value.int 2) = Value.float 2 ∧
    (mathOp MathOp.div (Value.int 4) (Value.int 2)).nt = NT.float ∧
    NT.float ≠ NT.int ∧ NT.float ≠ NT.fail ∧
    ¬(∀ (a b : ℤ) (op : MathOp),
        mathOp op (Value.int a) (Value.int b) = Value.fail ∨
          ∃ k : ℤ, mathOp op (Value.int a) (Value.int b) = Value.int k) := by
  have hdiv : mathOp MathOp.div (Value.int 4) (Value.int 2) = Value.float 2 := by
    show Value.float (((4 : ℤ) : ℚ) / ((2 : ℤ) : ℚ)) = Value.float 2
    norm_num [Value.float.injEq]
  refine ⟨hdiv, by rw [hdiv]; exact rfl, by decide, by decide, fun hcl => ?_⟩
  rcases hcl 4 2 MathOp.div with h | ⟨k, h⟩ <;> rw [hdiv] at h <;>
    exact Value.noConfusion h

/-- C2 (amended): on two integer operands, `+`, `-` and `*` yield the wrapped
integer result, `%` yields an integer unless the divisor is zero (then
`fail`), and `/` always yields a float — the quotient of the operands cast to
float — unless the divisor is zero (then `fail`).  Division is the one
arithmetic operator that produces a float from two integer operands. -/
theorem C2_integer_arithmetic_kinds : ∀ a b : ℤ,
    mathOp MathOp.add (Value.int a) (Value.int b) = Value.int (wrap64 (a + b)) ∧
    mathOp MathOp.subt (Value.int a) (Value.int b) = Value.int (wrap64 (a - b)) ∧
    mathOp MathOp.mult (Value.int a) (Value.int b) = Value.int (wrap64 (a * b)) ∧
    mathOp MathOp.modulo (Value.int a) (Value.int b) =
      (if b = 0 then Value.fail else Value.int (a.tmod b)) ∧
    mathOp MathOp.div (Value.int a) (Value.int b) =
      (if b = 0 then Value.fail else Value.float ((a : ℚ) / (b : ℚ))) :=
  fun _ _ => ⟨rfl, rfl, rfl, rfl, rfl⟩

/-- C3 (counterexample): the claim that `b ^ e` with negative integer `e`
returns `1 / b^|e|` as a float fails for a float base: `2.0 ^ -3` evaluates to
`8.0` — the absolute exponent is used for the iteration count but the float
branch of `interpretPower` never reciprocates — and `8 ≠ 1/8`.  (The source's
own test asserts `2.0 ^ -3 < .2` evaluates to `false`.) -/
theorem C3_float_base_negative_exponent_not_reciprocated :
    interpretPower (Value.float 2) (Value.int (-3)) = Value.float 8 ∧
    (8 : ℚ) ≠ 1 / 8 ∧
    ¬(∀ (b : ℚ) (e : ℤ), e < 0 →
        interpretPower (Value.float b) (Value.int e) =
          Value.float (1 / powLoopFloat b e.natAbs)) := by
  have hw : wrap64 (-(-3) : ℤ) = -(-3) :=
    wrap64_eq_self _ (by norm_num) (by norm_num)
  have ht : (-(-3) : ℤ).toNat = Int.natAbs (-3) := rfl
  have hstep : interpretPower (Value.float 2) (Value.int (-3)) =
      Value.float (powLoopFloat 2 (Int.natAbs (-3))) := by
    simp only [interpretPower, if_pos (show (-3 : ℤ) < 0 by norm_num), hw, ht]
  have h8 : powLoopFloat 2 (Int.natAbs (-3)) = 8 := by
    show ((1 : ℚ) * 2) * 2 * 2 = 8
    norm_num
  have hmain : interpretPower (Value.float 2) (Value.int (-3)) =
      Value.float 8 := by rw [hstep, h8]
  refine ⟨hmain, by norm_num, fun hcl => ?_⟩
  have h := hcl 2 (-3) (by norm_num)
  rw [hmain] at h
  have h8' : (8 : ℚ) = 1 / powLoopFloat 2 (Int.natAbs (-3)) :=
    Value.float.inj h
  rw [h8] at h8'
  norm_num at h8'

/-- C3 (amended): for a negative integer exponent `e` (above the `int64`
minimum, where the Go negation would wrap), a float base yields the repeated
product over `|e|` iterations as a float with no reciprocal — the negative
sign affects only the iteration count — while an integer base yields the
reciprocal of the wrapped `int64` repeated product, as a float. -/
theorem C3_negative_exponent_semantics : ∀ e : ℤ, e < 0 → -(2 ^ 63) < e →
    (∀ b : ℚ, interpretPower (Value.float b) (Value.int e) =
        Value.float (powLoopFloat b e.natAbs)) ∧
    (∀ c : ℤ, interpretPower (Value.int c) (Value.int e) =
        Value.float (1 / (powLoopInt c e.natAbs : ℚ))) := by
  intro e he hlow
  have hw : wrap64 (-e) = -e := wrap64_eq_self _ (by linarith) (by linarith)
  have ht : (-e).toNat = e.natAbs := by omega
  constructor
  · intro b
    simp only [interpretPower, if_pos he, hw, ht]
  · intro c
    simp only [interpretPower, if_pos he, hw, ht]

theorem C3_negative_exponent_semantics_witness :
    (-3 : ℤ) < 0 ∧ -(2 ^ 63) < (-3 : ℤ) ∧
    interpretPower (Value.float 2) (Value.int (-3)) =
      Value.float (powLoopFloat 2 (Int.natAbs (-3))) ∧
    interpretPower (Value.int 2) (Value.int (-3)) =
      Value.float (1 / (powLoopInt 2 (Int.natAbs (-3)) : ℚ)) :=
  ⟨by norm_num, by norm_num,
    (C3_negative_exponent_semantics (-3) (by norm_num) (by norm_num)).1 2,
    (C3_negative_exponent_semantics (-3) (by norm_num) (by norm_num)).2 2⟩

/-- C4 (counterexample): the claim that a range with a non-integer evaluated
endpoint yields `fail` is false on both endpoints: a float start `1.5..5`
raises the hard error `Invalid start value for range` rather than producing
`fail`, and a float end `0..2.5` is truncated, producing the list `[0, 1]`
rather than `fail`. -/
theorem C4_range_start_hard_error :
    interpret ⟨[], []⟩
        (.rangeFromTo (.lit (.float (3 / 2))) (.lit (.int 5))) =
      .error "Invalid start value for range" ∧
    (Except.error "Invalid start value for range" :
        Except String Value) ≠ .ok Value.fail ∧
    interpret ⟨[], []⟩
        (.rangeFromTo (.lit (.int 0)) (.lit (.float (5 / 2)))) =
      .ok (.list [Value.int 0, Value.int 1]) ∧
    (Except.ok (Value.list [Value.int 0, Value.int 1]) :
        Except String Value) ≠ .ok Value.fail := by
  have htr : truncQ ((5 : ℚ) / 2) = 2 := by
    unfold truncQ
    rw [if_pos (show (0 : ℚ) ≤ 5 / 2 by norm_num)]
    norm_num
  have hl : rangeList 0 (2 : ℤ) = [Value.int 0, Value.int 1] := rfl
  have hfloat : interpret ⟨[], []⟩
      (.rangeFromTo (.lit (.int 0)) (.lit (.float (5 / 2)))) =
      .ok (.list [Value.int 0, Value.int 1]) := by
    rw [interpret_range_lit,
      if_pos (show Value.nt (Value.int 0) = NT.int from rfl),
      rangeCore_int_float, htr, hl]
  exact ⟨rfl, fun h => Except.noConfusion h, hfloat,
    fun h => Value.noConfusion (Except.ok.inj h)⟩

/-- C4 (amended): a range whose evaluated start is present and not an integer
raises the hard error `Invalid start value for range` (the end is not even
evaluated); with an integer start and integer end the result is the list of
integers from the start inclusive to the end exclusive, empty when start ≥
end; a missing start defaults to zero; a float end is truncated toward zero
and the range is built from it; an end of any other kind yields `fail`. -/
theorem C4_range_semantics : ∀ env : Env,
    (∀ (v : Value) (e : Expr), v.nt ≠ NT.int →
       interpret env (.rangeFromTo (.lit v) e) =
         .error "Invalid start value for range") ∧
    (∀ a b : ℤ, interpret env (.rangeFromTo (.lit (.int a)) (.lit (.int b))) =
       .ok (.list (rangeList a b))) ∧
    (∀ b : ℤ, interpret env (.rangeTo (.lit (.int b))) =
       .ok (.list (rangeList 0 b))) ∧
    (∀ (a : ℤ) (q : ℚ),
       interpret env (.rangeFromTo (.lit (.int a)) (.lit (.float q))) =
         .ok (.list (rangeList a (truncQ q)))) ∧
    (∀ (a : ℤ) (v : Value), v.nt ≠ NT.int → v.nt ≠ NT.float →
       interpret env (.rangeFromTo (.lit (.int a)) (.lit v)) =
         .ok Value.fail) := by
  intro env
  refine ⟨?_, ?_, ?_, ?_, ?_⟩
  · intro v e hv
    simp [interpret, hv]
  · intro a b
    rw [interpret_range_lit,
      if_pos (show Value.nt (Value.int a) = NT.int from rfl),
      rangeCore_int_int]
  · intro b
    simp only [interpret]
    rw [rangeCore_none_int]
  · intro a q
    rw [interpret_range_lit,
      if_pos (show Value.nt (Value.int a) = NT.int from rfl),
      rangeCore_int_float]
  · intro a v h1 h2
    rw [interpret_range_lit,
      if_pos (show Value.nt (Value.int a) = NT.int from rfl)]
    cases v <;>
      first
        | rfl
        | exact absurd rfl h1
        | exact absurd rfl h2

theorem C4_range_semantics_witness :
    Value.nt (Value.bool true) ≠ NT.int ∧
    interpret ⟨[], []⟩ (.rangeFromTo (.lit (.bool true)) (.lit (.int 1))) =
      .error "Invalid start value for range" ∧
    interpret ⟨[], []⟩ (.rangeFromTo (.lit (.int 2)) (.lit (.int 5))) =
      .ok (.list (rangeList 2 5)) ∧
    Value.nt Value.null ≠ NT.int ∧ Value.nt Value.null ≠ NT.float ∧
    interpret ⟨[], []⟩ (.rangeFromTo (.lit (.int 0)) (.lit Value.null)) =
      .ok Value.fail :=
  ⟨by decide,
    (C4_range_semantics ⟨[], []⟩).1 (Value.bool true) (.lit (.int 1))
      (by decide),
    (C4_range_semantics ⟨[], []⟩).2.1 2 5,
    by decide, by decide,
    (C4_range_semantics ⟨[], []⟩).2.2.2.2 0 Value.null (by decide) (by decide)⟩

/-- C5: for a numeric left operand, division by integer zero or float zero and
modulo by integer zero or by any float divisor all evaluate to the soft `fail`
value through the normal `.ok` channel — no hard error is raised. -/
theorem C5_zero_divisor_soft_fail : ∀ (env : Env) (v : Value),
    v.nt = NT.int ∨ v.nt = NT.float →
    interpret env (.math .div (.lit v) (.lit (.int 0))) = .ok Value.fail ∧
    interpret env (.math .div (.lit v) (.lit (.float 0))) = .ok Value.fail ∧
    interpret env (.math .modulo (.lit v) (.lit (.int 0))) = .ok Value.fail ∧
    (∀ q : ℚ, interpret env (.math .modulo (.lit v) (.lit (.float q))) =
       .ok Value.fail) := by
  intro env v hv
  cases v <;> simp [Value.nt] at hv <;>
    exact ⟨rfl, rfl, rfl, fun _ => rfl⟩

theorem C5_zero_divisor_soft_fail_witness :
    (Value.nt (Value.int 7) = NT.int ∨ Value.nt (Value.int 7) = NT.float) ∧
    interpret ⟨[], []⟩ (.math .div (.lit (.int 7)) (.lit (.int 0))) =
      .ok Value.fail ∧
    interpret ⟨[], []⟩ (.math .modulo (.lit (.int 7)) (.lit (.float (1 / 2)))) =
      .ok Value.fail :=
  ⟨Or.inl rfl,
    (C5_zero_divisor_soft_fail ⟨[], []⟩ (Value.int 7) (Or.inl rfl)).1,
    (C5_zero_divisor_soft_fail ⟨[], []⟩ (Value.int 7) (Or.inl rfl)).2.2.2
      (1 / 2)⟩

/-- C6: the fallback operator returns its left operand whenever that operand
is not the `fail` value, and returns its right operand when the left operand
is exactly `fail`. -/
theorem C6_fallback_identity : ∀ (env : Env) (v w : Value),
    (v ≠ Value.fail →
       interpret env (.logic .fallback (.lit v) (.lit w)) = .ok v) ∧
    interpret env (.logic .fallback (.lit Value.fail) (.lit w)) = .ok w := by
  intro env v w
  constructor
  · intro hv
    cases v
    case fail => exact absurd rfl hv
    all_goals rfl
  · rfl

theorem C6_fallback_identity_witness :
    Value.int 1 ≠ Value.fail ∧
    interpret ⟨[], []⟩ (.logic .fallback (.lit (.int 1)) (.lit (.int 2))) =
      .ok (.int 1) ∧
    interpret ⟨[], []⟩ (.logic .fallback (.lit Value.fail) (.lit (.int 2))) =
      .ok (.int 2) :=
  ⟨fun h => Value.noConfusion h,
    (C6_fallback_identity ⟨[], []⟩ (.int 1) (.int 2)).1
      (fun h => Value.noConfusion h),
    (C6_fallback_identity ⟨[], []⟩ (.int 1) (.int 2)).2⟩

theorem starIter_ok (p : Parser) (n : Nodify2) :
    ∀ (fuel : ℕ) (prev res : ParseRes), prev.ok = true →
      (starIter p n fuel prev res).ok = true := by
  intro fuel
  induction fuel with
  | zero => intro prev res h; exact h
  | succ f ih =>
    intro prev res h
    rw [starIter]
    by_cases hr : res.ok = true
    · rw [if_pos hr]
      dsimp only
      by_cases h2 : (p res).ok = true
      · rw [if_pos h2]
        exact ih _ _ h2
      · rw [if_neg h2]
        exact ih _ _ h
    · rw [if_neg hr]
      exact h

/-- Auxiliary classification for the failure-restore property: a parser
result either is the input state itself, or is a success, or carries the
input's token stream. -/
def RestoresOrOk (r s : ParseRes) : Prop :=
  r = s ∨ r.ok = true ∨ r.tokens = s.tokens

theorem restore_of_shape (r s : ParseRes) (hr : RestoresOrOk r s)
    (h : r.ok = false) : r.tokens = s.tokens := by
  rcases hr with he | hok | ht
  · rw [he]
  · rw [hok] at h
    exact absurd h (by simp)
  · exact ht

theorem Then_shape (a b : Parser) (n : Option Nodify2) (s : ParseRes) :
    RestoresOrOk (Then a b n s) s := by
  unfold RestoresOrOk Then
  by_cases h1 : s.ok = true
  · simp only [if_pos h1]
    by_cases h2 : (a s).ok = true
    · simp only [if_pos h2]
      by_cases h3 : (b (a s)).ok = true
      · simp only [if_pos h3]
        cases n with
        | none => exact Or.inr (Or.inl h3)
        | some f => exact Or.inr (Or.inl h3)
      · simp only [if_neg h3]
        simp
    · simp only [if_neg h2]
      simp
  · simp only [if_neg h1]
    simp

theorem ThenMaybe_shape (a b : Parser) (n : Option Nodify2) (s : ParseRes) :
    RestoresOrOk (ThenMaybe a b n s) s := by
  unfold RestoresOrOk ThenMaybe
  by_cases h1 : s.ok = true
  · simp only [if_pos h1]
    by_cases h2 : (a s).ok = true
    · simp only [if_pos h2]
      by_cases h3 : (b (a s)).ok = true
      · simp only [if_pos h3]
        cases n with
        | none => exact Or.inr (Or.inl h3)
        | some f => exact Or.inr (Or.inl h3)
      · simp only [if_neg h3]
        exact Or.inr (Or.inl h2)
    · simp only [if_neg h2]
      simp
  · simp only [if_neg h1]
    simp

theorem Either_shape (a b : Parser) (s : ParseRes) :
    RestoresOrOk (Either a b s) s := by
  unfold RestoresOrOk Either
  by_cases h1 : (a s).ok = true
  · simp only [if_pos h1]
    exact Or.inr (Or.inl h1)
  · simp only [if_neg h1]
    by_cases h2 : (b s).ok = true
    · simp only [if_pos h2]
      exact Or.inr (Or.inl h2)
    · simp only [if_neg h2]
      simp

theorem ChoiceAux_shape (ps : List Parser) (s : ParseRes) :
    RestoresOrOk (ChoiceAux ps s) s := by
  induction ps with
  | nil => exact Or.inr (Or.inr rfl)
  | cons p ps ih =>
    rw [ChoiceAux]
    by_cases h1 : (p s).ok = true
    · simp only [if_pos h1]
      exact Or.inr (Or.inl h1)
    · simp only [if_neg h1]
      exact ih

theorem Plus_shape (fuel : ℕ) (p : Parser) (n : Nodify2) (s : ParseRes) :
    RestoresOrOk (Plus fuel p n s) s := by
  unfold RestoresOrOk Plus
  by_cases h1 : (p s).ok = true
  · simp only [if_pos h1]
    exact Or.inr (Or.inl (starIter_ok p n fuel (p s) (p s) h1))
  · simp only [if_neg h1]
    simp

theorem Maybe_shape (p : Parser) (s : ParseRes) :
    RestoresOrOk (Maybe p s) s := by
  unfold RestoresOrOk Maybe
  by_cases h1 : (p s).ok = true
  · simp only [if_pos h1]
    exact Or.inr (Or.inl h1)
  · simp only [if_neg h1]
    simp

theorem Wrapped_shape (lt : TokenT) (p : Parser) (rt : TokenT)
    (s : ParseRes) : RestoresOrOk (Wrapped lt p rt s) s := by
  unfold RestoresOrOk Wrapped
  cases hts : s.tokens with
  | nil => simp
  | cons tok rest =>
    dsimp only
    by_cases h1 : tok.t = lt
    · simp only [if_pos h1]
      by_cases h2 : (p ⟨true, "", none, none, stripNL rest⟩).ok = true
      · simp only [if_pos h2]
        cases hm : stripNL (p ⟨true, "", none, none, stripNL rest⟩).tokens with
        | nil => simp
        | cons tok2 rest2 =>
          dsimp only
          by_cases h3 : tok2.t = rt
          · simp only [if_pos h3]
            simp
          · simp only [if_neg h3]
            simp
      · simp only [if_neg h2]
        simp
    · simp only [if_neg h1]
      simp

/-- C7 (counterexample): the claim that every parser built from the combinator
engine restores the original token stream on failure fails at the token-level
primitives built on `fail`: `pOperator` applied to a one-token stream whose
token does not match returns a failing state whose remaining stream is empty,
not the original one-token stream. -/
theorem C7_pOperator_loses_tokens_on_failure :
    Built (pOperator TokenT.plusTT) ∧
    (pOperator TokenT.plusTT
        ⟨true, "", none, none, [⟨TokenT.intTT, 1, "1"⟩]⟩).ok = false ∧
    (pOperator TokenT.plusTT
        ⟨true, "", none, none, [⟨TokenT.intTT, 1, "1"⟩]⟩).tokens ≠
      [⟨TokenT.intTT, 1, "1"⟩] ∧
    ¬(∀ p, Built p → ∀ s : ParseRes, (p s).ok = false →
        (p s).tokens = s.tokens) := by
  refine ⟨Built.op _, by decide, by decide, fun hcl => ?_⟩
  have h := hcl (pOperator TokenT.plusTT) (Built.op _)
    ⟨true, "", none, none, [⟨TokenT.intTT, 1, "1"⟩]⟩ (by decide)
  exact absurd h (by decide)

/-- C7 (amended): every parser whose outermost construction is one of the
eight combinators of `combinators.go` (`Then`, `ThenMaybe`, `Either`,
`Choice`, `Star`, `Plus`, `Maybe`, `Wrapped`) — whatever its sub-parsers do —
returns the original remaining token stream whenever it returns a failing
state; the token-level primitives built on `fail` (`pOperator`,
`pOperatorUnary`, `pAssignOperator`, and `pToken` on an exhausted stream) do
not share this guarantee: their failing states can carry an empty stream. -/
theorem C7_combinators_restore_on_failure :
    ∀ p, CombApp p → ∀ s : ParseRes, (p s).ok = false →
      (p s).tokens = s.tokens := by
  intro p hp s
  cases hp with
  | then_ a b n => exact restore_of_shape _ s (Then_shape a b n s)
  | thenMaybe a b n => exact restore_of_shape _ s (ThenMaybe_shape a b n s)
  | either a b => exact restore_of_shape _ s (Either_shape a b s)
  | choice ps => exact restore_of_shape _ s (ChoiceAux_shape ps s)
  | star fuel q n =>
    intro h
    exact absurd h (by simp [Star])
  | plus fuel q n => exact restore_of_shape _ s (Plus_shape fuel q n s)
  | maybe q => exact restore_of_shape _ s (Maybe_shape q s)
  | wrapped lt q rt => exact restore_of_shape _ s (Wrapped_shape lt q rt s)

theorem C7_combinators_restore_on_failure_witness :
    (Choice ([] : List Parser) ⟨true, "", none, none, []⟩).ok = false ∧
    (Choice ([] : List Parser) ⟨true, "", none, none, []⟩).tokens =
      ([] : List Token) :=
  ⟨rfl,
    C7_combinators_restore_on_failure (Choice []) (CombApp.choice [])
      ⟨true, "", none, none, []⟩ rfl⟩

/-- C8 (counterexample): the claim that the implicit-lambda rewrite never
wraps a subexpression that already is a lambda is false: `maybeFunc` has no
check for an existing lambda, so a lambda node whose body is the underscore
atom — as parsed from a constant declaration `f := x => _` — is wrapped in a
second synthesized one-parameter lambda. -/
theorem C8_rewrite_wraps_lambda_containing_underscore :
    PNode.typ (PNode.mk .lambdaNT none
        (some (.mk .paramNT (some "x") none none))
        (some (.mk .underscoreNT (some "_") none none))) = NodeT.lambdaNT ∧
    maybeFuncRewrite (PNode.mk .lambdaNT none
        (some (.mk .paramNT (some "x") none none))
        (some (.mk .underscoreNT (some "_") none none))) =
      underscoreLambda (PNode.mk .lambdaNT none
        (some (.mk .paramNT (some "x") none none))
        (some (.mk .underscoreNT (some "_") none none))) ∧
    maybeFuncRewrite (PNode.mk .lambdaNT none
        (some (.mk .paramNT (some "x") none none))
        (some (.mk .underscoreNT (some "_") none none))) ≠
      PNode.mk .lambdaNT none
        (some (.mk .paramNT (some "x") none none))
        (some (.mk .underscoreNT (some "_") none none)) ∧
    ¬(∀ nd : PNode, nd.typ = NodeT.lambdaNT → maybeFuncRewrite nd = nd) := by
  have hne : maybeFuncRewrite (PNode.mk .lambdaNT none
      (some (.mk .paramNT (some "x") none none))
      (some (.mk .underscoreNT (some "_") none none))) ≠
      PNode.mk .lambdaNT none
        (some (.mk .paramNT (some "x") none none))
        (some (.mk .underscoreNT (some "_") none none)) := by
    intro h
    rw [show maybeFuncRewrite (PNode.mk .lambdaNT none
        (some (.mk .paramNT (some "x") none none))
        (some (.mk .underscoreNT (some "_") none none))) =
      underscoreLambda (PNode.mk .lambdaNT none
        (some (.mk .paramNT (some "x") none none))
        (some (.mk .underscoreNT (some "_") none none))) from rfl] at h
    injection h with ht hv hl hr
    injection hl with hl1
    injection hl1 with b1 b2 b3 b4
    injection b2 with b5
    exact absurd b5 (by decide)
  exact ⟨rfl, rfl, hne, fun hcl => hne (hcl _ rfl)⟩

/-- C8 (amended): the rewrite wraps a parsed subexpression exactly when its
tree contains no map/where/pipe/statement node and contains an underscore
atom, regardless of whether the subexpression already is a lambda; in
particular a subexpression containing no underscore — such as an ordinary
lambda — is never wrapped.  (In the compound-expression argument positions
the grammar additionally tries the lambda alternative before applying
`maybeFunc`, but a lambda can still reach the rewrite parenthesized or as a
declaration right-hand side.) -/
theorem C8_rewrite_characterisation : ∀ nd : PNode,
    (hasUnderscore nd = false → maybeFuncRewrite nd = nd) ∧
    (hasForbidden nd = true → maybeFuncRewrite nd = nd) ∧
    (hasForbidden nd = false → hasUnderscore nd = true →
      maybeFuncRewrite nd = underscoreLambda nd) := by
  intro nd
  refine ⟨?_, ?_, ?_⟩
  · intro h
    simp [maybeFuncRewrite, h]
  · intro h
    simp [maybeFuncRewrite, h]
  · intro h1 h2
    simp [maybeFuncRewrite, h1, h2]

theorem C8_rewrite_characterisation_witness :
    hasUnderscore (PNode.mk .lambdaNT none
        (some (.mk .paramNT (some "x") none none))
        (some (.mk .identifierNT (some "y") none none))) = false ∧
    maybeFuncRewrite (PNode.mk .lambdaNT none
        (some (.mk .paramNT (some "x") none none))
        (some (.mk .identifierNT (some "y") none none))) =
      PNode.mk .lambdaNT none
        (some (.mk .paramNT (some "x") none none))
        (some (.mk .identifierNT (some "y") none none)) :=
  ⟨rfl, (C8_rewrite_characterisation _).1 rfl⟩

/-- C9: equality between a string and a number is asymmetric.  Evaluating
`s == n` casts the number to its printed form and compares strings, returning
a boolean; evaluating `n == s` finds no cast (numbers only cast toward
floats), `evalEquality` reports an incomparable-types error, and the
comparison yields the `fail` value. -/
theorem C9_string_number_equality_asymmetric :
    ∀ (env : Env) (s : String) (n : ℤ) (q : ℚ),
      interpret env (.cmp .eq (.lit (.str s)) (.lit (.int n))) =
        .ok (.bool (decide (s = intToString n))) ∧
      interpret env (.cmp .eq (.lit (.int n)) (.lit (.str s))) =
        .ok Value.fail ∧
      interpret env (.cmp .eq (.lit (.str s)) (.lit (.float q))) =
        .ok (.bool (decide (s = floatToString q))) ∧
      interpret env (.cmp .eq (.lit (.float q)) (.lit (.str s))) =
        .ok Value.fail :=
  fun _ _ _ _ => ⟨rfl, rfl, rfl, rfl⟩

/-- C10: the logical operators and the fallback operator evaluate both
operands unconditionally: whatever the left operand evaluates to, a hard
error raised by the right operand propagates out of the whole expression —
there is no short-circuiting. -/
theorem C10_no_short_circuit :
    ∀ (env : Env) (op : LogicOp) (l r : Expr) (lv : Value) (m : String),
      interpret env l = .ok lv → interpret env r = .error m →
      interpret env (.logic op l r) = .error m := by
  intro env op l r lv m hl hr
  simp only [interpret, hl, hr]

theorem C10_no_short_circuit_witness :
    interpret ⟨[], []⟩ (.lit (.bool true)) = .ok (.bool true) ∧
    interpret ⟨[], []⟩ (.ident "nope") =
      .error ("\"" ++ "nope" ++ "\" is undefined") ∧
    interpret ⟨[], []⟩ (.logic .or (.lit (.bool true)) (.ident "nope")) =
      .error ("\"" ++ "nope" ++ "\" is undefined") :=
  ⟨rfl, rfl,
    C10_no_short_circuit ⟨[], []⟩ .or (.lit (.bool true)) (.ident "nope")
      (.bool true) ("\"" ++ "nope" ++ "\" is undefined") rfl rfl⟩

end Rye
